import Mathlib

/-!
Verification of the NodeSerializer of TrenchBroom
(src/common/src/IO/NodeSerializer.cpp) against its specification.

The serializer walks a scene graph of worlds, layers, groups, entities and
brushes and emits begin/end-file, begin/end-entity, property, brush and face
events to a pluggable format strategy.  We embed the data model and the
operations shallowly: node pointers become natural-number reference tokens,
the mutable serializer members become an explicit state record, and each
member function becomes a function from state to state paired with the list
of format-strategy hook events it emits.
-/

namespace TB

/-- `Model::EntityProperty`: an ordered key-value pair of strings. -/
structure EntityProperty where
  key : String
  value : String
deriving DecidableEq, Repr

/-- `Model::LockState` (Model/LockState.h). -/
inductive LockState where
  | Lock_Inherited
  | Lock_Locked
  | Lock_Unlocked
deriving DecidableEq, Repr

/-- `Model::Layer`: the data held by a LayerNode that NodeSerializer reads.
The optional color is modelled by the string form that
`kdl::str_to_string(*color)` would produce, since the serializer only ever
uses the color through that conversion; the optional sort index is
`hasSortIndex`/`sortIndex` folded into one `Option`. -/
structure Layer where
  name : String
  color : Option String
  sortIndex : Option Int
  omitFromExport : Bool
deriving DecidableEq, Repr

/-- `Model::Node` and its subclasses.  `ref` models the node's identity
(the `const Model::Node*` pointer value): two nodes are the same reference
exactly when their `ref` tokens are equal.  Children are the node's direct
children, in order, as visited by `visitChildren`. -/
inductive Node where
  | world (ref : Nat) (props : List EntityProperty) (children : List Node)
  | layer (ref : Nat) (data : Layer) (lockState : LockState) (hidden : Bool)
      (children : List Node)
  | group (ref : Nat) (name : String) (children : List Node)
  | entity (ref : Nat) (children : List Node)
  | brush (ref : Nat)

/-- The direct children of a node, as traversed by `Node::visitChildren`. -/
def Node.children : Node → List Node
  | .world _ _ cs => cs
  | .layer _ _ _ _ cs => cs
  | .group _ _ cs => cs
  | .entity _ cs => cs
  | .brush _ => []

/-- `Model::LayerNode`, as the typed pointer used by `defaultLayer` and
`customLayer`: reference token plus the node-level lock/hidden state and the
`Layer` data object. -/
structure LayerNode where
  ref : Nat
  layer : Layer
  lockState : LockState
  hidden : Bool
  children : List Node

/-- A `LayerNode*` viewed as a `Model::Node*`. -/
def LayerNode.toNode (l : LayerNode) : Node :=
  .layer l.ref l.layer l.lockState l.hidden l.children

/-- The part of `Model::WorldNode` that `NodeSerializer::defaultLayer` reads:
its reference token, `world.entity().properties()`, and `world.defaultLayer()`. -/
structure WorldNode where
  ref : Nat
  entityProps : List EntityProperty
  defaultLayer : LayerNode

/-- The decimal digit character for `d` (0-9). -/
def digitChar (d : Nat) : Char := Char.ofNat (48 + d)

/-- Decimal digits of `n`, most significant first; structural recursion on a
fuel argument (`fuel ≥ n` is enough fuel) so that concrete values reduce in
the kernel. -/
def toDecAux : Nat → Nat → List Char
  | 0, _ => []
  | _ + 1, 0 => []
  | fuel + 1, n + 1 => toDecAux fuel ((n + 1) / 10) ++ [digitChar ((n + 1) % 10)]

/-- Decimal representation of a natural number as a character list. -/
def decRepr (n : Nat) : List Char :=
  if n = 0 then [Char.ofNat 48] else toDecAux n n

/-- `NodeSerializer::IdManager::idToString`, i.e. `kdl::str_to_string` on an
id: the decimal string of the number. -/
def idToString (n : Nat) : String := String.mk (decRepr n)

/-- The state of one `NodeSerializer`.  `layerIds` and `groupIds` are the
`m_ids` maps of the two `IdManager` members (`m_layerIds`, `m_groupIds`),
kept as association lists from node reference to cached id string.
`currentId` models the function-local `static Model::IdType currentId = 1`
inside `IdManager::makeId`: being a static local it is one single counter
shared by every `IdManager` instance, not one counter per instance. -/
structure SerializerState where
  entityNo : Nat
  brushNo : Nat
  exporting : Bool
  layerIds : List (Nat × String)
  groupIds : List (Nat × String)
  currentId : Nat
deriving DecidableEq, Repr

/-- The state of a freshly constructed `NodeSerializer` at process start:
both counters 0, exporting false, both id caches empty, and the static
counter at its initial value 1. -/
def initialState : SerializerState :=
  { entityNo := 0, brushNo := 0, exporting := false,
    layerIds := [], groupIds := [], currentId := 1 }

/-- `std::map::find` on an id cache. -/
def lookupRef : List (Nat × String) → Nat → Option String
  | [], _ => none
  | e :: rest, t => if e.1 = t then some e.2 else lookupRef rest t

/-- `IdManager::getId` on one cache together with the shared static counter:
return the cached string if present, otherwise allocate
`idToString(currentId)` (with `currentId++`) and insert it. -/
def getIdCore (ids : List (Nat × String)) (cur : Nat) (t : Nat) :
    String × List (Nat × String) × Nat :=
  match lookupRef ids t with
  | some s => (s, ids, cur)
  | none => (idToString cur, ids ++ [(t, idToString cur)], cur + 1)

/-- `m_layerIds.getId(t)` on the serializer state. -/
def layerGetId (t : Nat) (s : SerializerState) : String × SerializerState :=
  let r := getIdCore s.layerIds s.currentId t
  (r.1, { s with layerIds := r.2.1, currentId := r.2.2 })

/-- `m_groupIds.getId(t)` on the serializer state. -/
def groupGetId (t : Nat) (s : SerializerState) : String × SerializerState :=
  let r := getIdCore s.groupIds s.currentId t
  (r.1, { s with groupIds := r.2.1, currentId := r.2.2 })

/-- The format-strategy hook events (`doBeginFile`, `doEndFile`,
`doBeginEntity`, `doEndEntity`, `doEntityProperty`, `doBrush`, `doBrushFace`).
Nodes, brushes and faces are identified by their reference tokens. -/
inductive Event where
  | beginFileEvt (roots : List Nat)
  | endFileEvt
  | beginEntityEvt (node : Nat)
  | endEntityEvt (node : Nat)
  | propertyEvt (p : EntityProperty)
  | brushEvt (b : Nat)
  | brushFaceEvt (f : Nat)
deriving DecidableEq, Repr

/-- `NodeSerializer::beginFile`: reset both counters, emit the begin-file
hook.  The id caches and the static id counter are untouched. -/
def beginFile (roots : List Nat) (s : SerializerState) :
    SerializerState × List Event :=
  ({ s with entityNo := 0, brushNo := 0 }, [Event.beginFileEvt roots])

/-- `NodeSerializer::endFile`. -/
def endFile (s : SerializerState) : SerializerState × List Event :=
  (s, [Event.endFileEvt])

/-- `NodeSerializer::beginEntity(node)` (one-argument overload): reset the
brush counter, emit the begin-entity hook. -/
def beginEntity (node : Nat) (s : SerializerState) :
    SerializerState × List Event :=
  ({ s with brushNo := 0 }, [Event.beginEntityEvt node])

/-- `NodeSerializer::endEntity`: emit the end-entity hook, increment the
entity counter. -/
def endEntity (node : Nat) (s : SerializerState) :
    SerializerState × List Event :=
  ({ s with entityNo := s.entityNo + 1 }, [Event.endEntityEvt node])

/-- `NodeSerializer::entityProperty`. -/
def entityProperty (p : EntityProperty) (s : SerializerState) :
    SerializerState × List Event :=
  (s, [Event.propertyEvt p])

/-- `NodeSerializer::entityProperties`: one `entityProperty` per element,
in order. -/
def entityProperties (ps : List EntityProperty) (s : SerializerState) :
    SerializerState × List Event :=
  (s, ps.map Event.propertyEvt)

/-- `NodeSerializer::brush`: emit the brush hook, increment the brush
counter. -/
def brush (b : Nat) (s : SerializerState) : SerializerState × List Event :=
  ({ s with brushNo := s.brushNo + 1 }, [Event.brushEvt b])

/-- `NodeSerializer::brushFace`. -/
def brushFace (f : Nat) (s : SerializerState) : SerializerState × List Event :=
  (s, [Event.brushFaceEvt f])

/-- `NodeSerializer::setExporting`. -/
def setExporting (b : Bool) (s : SerializerState) : SerializerState :=
  { s with exporting := b }

/-- `NodeSerializer::beginEntity(node, properties, extraAttributes)`
(three-argument overload): `beginEntity(node)` then the two property
passes. -/
def beginEntityWithProps (node : Nat) (properties extraAttributes : List EntityProperty)
    (s : SerializerState) : SerializerState × List Event :=
  let r1 := beginEntity node s
  let r2 := entityProperties properties r1.1
  let r3 := entityProperties extraAttributes r2.1
  (r3.1, r1.2 ++ r2.2 ++ r3.2)

/-- Modelled from the spec: `Node::visitChildren` (the scene-graph node
classes are outside the reviewed sources) visits the direct children in
order with exhaustive variant dispatch.  In `NodeSerializer::entity` the
World/Layer/Group/Entity lambdas are no-ops and each Brush child is passed
to `brush`. -/
def visitBrushChildren : List Node → SerializerState → SerializerState × List Event
  | [], s => (s, [])
  | c :: rest, s =>
    match c with
    | .brush b =>
      let r1 := brush b s
      let r2 := visitBrushChildren rest r1.1
      (r2.1, r1.2 ++ r2.2)
    | _ => visitBrushChildren rest s

/-- `NodeSerializer::entity(node, properties, parentProperties, brushParent)`:
begin the entity with both property lists, serialize the direct brush
children of `brushParent`, end the entity. -/
def entity (node : Nat) (properties parentProps : List EntityProperty)
    (brushParent : Node) (s : SerializerState) : SerializerState × List Event :=
  let r1 := beginEntityWithProps node properties parentProps s
  let r2 := visitBrushChildren brushParent.children r1.1
  let r3 := endEntity node r2.1
  (r3.1, r1.2 ++ r2.2 ++ r3.2)

namespace PropertyKeys

/-- Modelled from the spec: `Model::PropertyKeys` (Model/EntityProperties.h,
outside the reviewed sources).  The four layer-flag keys are the strings the
spec gives verbatim; the remaining keys are opaque dialect-stable constants
whose exact spelling no claim depends on. -/
def LayerColor : String := "_tb_layer_color"

/-- Modelled from the spec: see `PropertyKeys.LayerColor`. -/
def LayerLocked : String := "_tb_layer_locked"

/-- Modelled from the spec: see `PropertyKeys.LayerColor`. -/
def LayerHidden : String := "_tb_layer_hidden"

/-- Modelled from the spec: see `PropertyKeys.LayerColor`. -/
def LayerOmitFromExport : String := "_tb_layer_omit_from_export"

/-- Modelled from the spec: see `PropertyKeys.LayerColor`. -/
def Classname : String := "classname"

/-- Modelled from the spec: see `PropertyKeys.LayerColor`. -/
def GroupType : String := "_tb_type"

/-- Modelled from the spec: see `PropertyKeys.LayerColor`. -/
def LayerName : String := "_tb_name"

/-- Modelled from the spec: see `PropertyKeys.LayerColor`. -/
def LayerId : String := "_tb_id"

/-- Modelled from the spec: see `PropertyKeys.LayerColor`. -/
def LayerSortIndex : String := "_tb_layer_sort_index"

/-- Modelled from the spec: the generic "Layer" back-reference key. -/
def Layer : String := "_tb_layer"

/-- Modelled from the spec: the generic "Group" back-reference key. -/
def Group : String := "_tb_group"

end PropertyKeys

namespace PropertyValues

/-- Modelled from the spec: `Model::PropertyValues` (outside the reviewed
sources); the flag values are "1" per the spec, the classname and group-type
values are the fixed layer/group marker sentinels. -/
def LayerClassname : String := "func_group"

/-- Modelled from the spec: see `PropertyValues.LayerClassname`. -/
def GroupTypeLayer : String := "_tb_layer"

/-- Modelled from the spec: see `PropertyValues.LayerClassname`. -/
def LayerLockedValue : String := "1"

/-- Modelled from the spec: see `PropertyValues.LayerClassname`. -/
def LayerHiddenValue : String := "1"

/-- Modelled from the spec: see `PropertyValues.LayerClassname`. -/
def LayerOmitFromExportValue : String := "1"

end PropertyValues

/-- Modelled from the spec: `Entity::addOrUpdateProperty`
(Model/EntityProperties.h, outside the reviewed sources) follows the
add-or-update pattern the spec describes: overlay replaces the value of an
existing key in place, never appends a duplicate; a missing key is appended. -/
def addOrUpdateProperty : List EntityProperty → String → String → List EntityProperty
  | [], k, v => [⟨k, v⟩]
  | p :: ps, k, v => if p.key = k then ⟨k, v⟩ :: ps else p :: addOrUpdateProperty ps k v

/-- Modelled from the spec: `Entity::removeProperty` removes the key from the
property list ("keys fully removed, not left stale"). -/
def removeProperty : List EntityProperty → String → List EntityProperty
  | [], _ => []
  | p :: ps, k => if p.key = k then removeProperty ps k else p :: removeProperty ps k

/-- Whether a property list contains a key. -/
def hasKey : List EntityProperty → String → Bool
  | [], _ => false
  | p :: ps, k => if p.key = k then true else hasKey ps k

/-- The overlay step of `NodeSerializer::defaultLayer`: starting from a copy
of the world entity's properties, apply the four add-or-remove steps in
source order (color, locked, hidden, omit-from-export) using the default
layer's data. -/
def setDefaultLayerProps (worldProps : List EntityProperty) (dl : Layer)
    (dlLock : LockState) (dlHidden : Bool) : List EntityProperty :=
  let p1 := match dl.color with
    | some c => addOrUpdateProperty worldProps PropertyKeys.LayerColor c
    | none => removeProperty worldProps PropertyKeys.LayerColor
  let p2 := if dlLock = LockState.Lock_Locked then
      addOrUpdateProperty p1 PropertyKeys.LayerLocked PropertyValues.LayerLockedValue
    else removeProperty p1 PropertyKeys.LayerLocked
  let p3 := if dlHidden then
      addOrUpdateProperty p2 PropertyKeys.LayerHidden PropertyValues.LayerHiddenValue
    else removeProperty p2 PropertyKeys.LayerHidden
  let p4 := if dl.omitFromExport then
      addOrUpdateProperty p3 PropertyKeys.LayerOmitFromExport PropertyValues.LayerOmitFromExportValue
    else removeProperty p3 PropertyKeys.LayerOmitFromExport
  p4

/-- `NodeSerializer::defaultLayer(world)`: build the overlaid world property
list; if exporting and the default layer is omitted from export, emit only
the begin/properties/end shell, otherwise emit the full world entity whose
brush parent is the default layer. -/
def defaultLayer (w : WorldNode) (s : SerializerState) :
    SerializerState × List Event :=
  let worldEntityProps :=
    setDefaultLayerProps w.entityProps w.defaultLayer.layer
      w.defaultLayer.lockState w.defaultLayer.hidden
  if s.exporting && w.defaultLayer.layer.omitFromExport then
    let r1 := beginEntityWithProps w.ref worldEntityProps [] s
    let r2 := endEntity w.ref r1.1
    (r2.1, r1.2 ++ r2.2)
  else
    entity w.ref worldEntityProps [] w.defaultLayer.toNode s

/-- `kdl::str_to_string` on the `int` sort index. -/
def sortIndexToString (i : Int) : String := toString i

/-- `NodeSerializer::layerProperties(layerNode)`: the ordered synthetic
property list of a custom layer, threading the layer IdManager state. -/
def layerProperties (l : LayerNode) (s : SerializerState) :
    List EntityProperty × SerializerState :=
  let idr := layerGetId l.ref s
  let base : List EntityProperty :=
    [⟨PropertyKeys.Classname, PropertyValues.LayerClassname⟩,
     ⟨PropertyKeys.GroupType, PropertyValues.GroupTypeLayer⟩,
     ⟨PropertyKeys.LayerName, l.layer.name⟩,
     ⟨PropertyKeys.LayerId, idr.1⟩]
  let withSort := base ++ (match l.layer.sortIndex with
    | some i => [⟨PropertyKeys.LayerSortIndex, sortIndexToString i⟩]
    | none => [])
  let withLock := withSort ++ (if l.lockState = LockState.Lock_Locked then
      [⟨PropertyKeys.LayerLocked, PropertyValues.LayerLockedValue⟩] else [])
  let withHidden := withLock ++ (if l.hidden then
      [⟨PropertyKeys.LayerHidden, PropertyValues.LayerHiddenValue⟩] else [])
  let withOmit := withHidden ++ (if l.layer.omitFromExport then
      [⟨PropertyKeys.LayerOmitFromExport, PropertyValues.LayerOmitFromExportValue⟩] else [])
  (withOmit, idr.2)

/-- `NodeSerializer::customLayer(layer)`: skipped entirely when exporting and
the layer is omitted from export; otherwise emitted as a synthetic entity
whose brush parent is the layer itself. -/
def customLayer (l : LayerNode) (s : SerializerState) :
    SerializerState × List Event :=
  if s.exporting && l.layer.omitFromExport then (s, [])
  else
    let pr := layerProperties l s
    entity l.ref pr.1 [] l.toNode pr.2

/-- `NodeSerializer::parentProperties(node)`: `none` models the null
pointer.  World, Entity and Brush contribute nothing; a Layer or Group node
contributes one back-reference property with its own id from the matching
IdManager. -/
def parentProperties (node : Option Node) (s : SerializerState) :
    List EntityProperty × SerializerState :=
  match node with
  | none => ([], s)
  | some n =>
    match n with
    | .world _ _ _ => ([], s)
    | .layer ref _ _ _ _ =>
      let idr := layerGetId ref s
      ([⟨PropertyKeys.Layer, idr.1⟩], idr.2)
    | .group ref _ _ =>
      let idr := groupGetId ref s
      ([⟨PropertyKeys.Group, idr.1⟩], idr.2)
    | .entity _ _ => ([], s)
    | .brush _ => ([], s)

/-- Modelled from the spec: `kdl::str_escape_if_necessary(str, "\x22")`
(kdl/string_format.h, outside the reviewed sources) escapes each quote
character that is not already escaped by a preceding unescaped backslash;
the running flag records whether the previous character acted as an escape. -/
def escIfNec : Bool → List Char → List Char
  | _, [] => []
  | escaped, c :: rest =>
    (if c = '"' && !escaped then ['\\', c] else [c]) ++
      escIfNec (!escaped && c == '\\') rest

/-- `kdl::str_escape_if_necessary` with the quote character, over the
characters of the string. -/
def strEscapeIfNecessary (s : List Char) : List Char := escIfNec false s

/-- `std::string::npos` as a `size_t` value. -/
def npos : Nat := 2 ^ 64 - 1

/-- `size_t` subtraction: wraps modulo `2 ^ 64` (both operands below
`2 ^ 64`). -/
def sub64 (a b : Nat) : Nat := (a + 2 ^ 64 - b) % 2 ^ 64

/-- `std::string::find_last_not_of(c)`: the greatest index holding a
character other than `c`, if any. -/
def findLastNotOf : List Char → Char → Option Nat
  | [], _ => none
  | a :: rest, c =>
    match findLastNotOf rest c with
    | some i => some (i + 1)
    | none => if a = c then none else some 0

/-- `NodeSerializer::escapeEntityProperties(str)` over the characters of the
string: if the string ends in a backslash and `l - find_last_not_of` is even
in `size_t` arithmetic (`find_last_not_of` returning `npos` included), drop
the final character before escaping, otherwise escape the string as is. -/
def escapeEntityProperties (s : List Char) : List Char :=
  let l := s.length
  if 0 < l ∧ s.getLast? = some '\\' then
    let p := match findLastNotOf s '\\' with
      | some i => i
      | none => npos
    if sub64 l p % 2 = 0 then strEscapeIfNecessary (s.take (l - 1))
    else strEscapeIfNecessary s
  else strEscapeIfNecessary s

/-- The length of the trailing run of `c` at the end of the list. -/
def trailingRun : List Char → Char → Nat
  | [], _ => 0
  | a :: rest, c =>
    let t := trailingRun rest c
    if t = rest.length ∧ a = c then t + 1 else t

/-- The public primitive calls of the `NodeSerializer` protocol, used to
quantify over call sequences. -/
inductive SOp where
  | opBeginFile (roots : List Nat)
  | opEndFile
  | opBeginEntity (node : Nat)
  | opEndEntity (node : Nat)
  | opEntityProperty (p : EntityProperty)
  | opBrush (b : Nat)
  | opBrushFace (f : Nat)
  | opSetExporting (b : Bool)

/-- One step of the serializer protocol. -/
def applyOp (op : SOp) (s : SerializerState) : SerializerState × List Event :=
  match op with
  | .opBeginFile roots => beginFile roots s
  | .opEndFile => endFile s
  | .opBeginEntity n => beginEntity n s
  | .opEndEntity n => endEntity n s
  | .opEntityProperty p => entityProperty p s
  | .opBrush b => brush b s
  | .opBrushFace f => brushFace f s
  | .opSetExporting b => (setExporting b s, [])

/-- Calls that touch the id caches during a session, together with
`beginFile`, used to quantify over what can happen between two `getId`
calls. -/
inductive SessionOp where
  | callLayerId (t : Nat)
  | callGroupId (t : Nat)
  | callBeginFile (roots : List Nat)

/-- Run a sequence of session calls, discarding results and events. -/
def runSession : List SessionOp → SerializerState → SerializerState
  | [], s => s
  | .callLayerId t :: rest, s => runSession rest (layerGetId t s).2
  | .callGroupId t :: rest, s => runSession rest (groupGetId t s).2
  | .callBeginFile roots :: rest, s => runSession rest (beginFile roots s).1

/-- The reference tokens of the direct Brush children of a child list. -/
def brushRefs (children : List Node) : List Nat :=
  children.filterMap (fun c => match c with
    | .brush b => some b
    | _ => none)

/-- The reachable-state invariant of one id cache relative to the shared
static counter: every cached string is the decimal form of a positive id
already handed out (strictly below the counter). -/
def CacheInv (ids : List (Nat × String)) (cur : Nat) : Prop :=
  ∀ e ∈ ids, ∃ j, 0 < j ∧ j < cur ∧ e.2 = idToString j

/-- The reachable-state invariant of a serializer: both caches only hold
decimal forms of already-allocated ids, cache keys are unique per cache, all
cached id strings across the two caches are pairwise distinct, and the
shared counter is positive.  It holds in `initialState` and is preserved by
every operation. -/
structure Inv (s : SerializerState) : Prop where
  layerVals : CacheInv s.layerIds s.currentId
  groupVals : CacheInv s.groupIds s.currentId
  layerKeys : (s.layerIds.map Prod.fst).Nodup
  groupKeys : (s.groupIds.map Prod.fst).Nodup
  distinctVals : ((s.layerIds ++ s.groupIds).map Prod.snd).Nodup
  curPos : 0 < s.currentId

theorem toDecAux_eq (fuel : Nat) : ∀ n : Nat, n ≤ fuel →
    toDecAux fuel n = (Nat.digits 10 n).reverse.map digitChar := by
  induction fuel with
  | zero =>
    intro n hn
    interval_cases n
    simp [toDecAux]
  | succ f ih =>
    intro n hn
    cases n with
    | zero => simp [toDecAux]
    | succ m =>
      have hd : Nat.digits 10 (m + 1) = ((m + 1) % 10) :: Nat.digits 10 ((m + 1) / 10) :=
        Nat.digits_def' (by norm_num) (Nat.succ_pos m)
      have hlt : (m + 1) / 10 < m + 1 := Nat.div_lt_self (Nat.succ_pos m) (by norm_num)
      have hle : (m + 1) / 10 ≤ f := by omega
      rw [toDecAux, ih _ hle, hd]
      simp

theorem digitChar_bounded_inj :
    ∀ d1, d1 < 10 → ∀ d2, d2 < 10 → digitChar d1 = digitChar d2 → d1 = d2 := by
  decide

theorem map_digitChar_inj : ∀ l1 l2 : List Nat, (∀ d ∈ l1, d < 10) →
    (∀ d ∈ l2, d < 10) → l1.map digitChar = l2.map digitChar → l1 = l2
  | [], [], _, _, _ => rfl
  | [], _ :: _, _, _, h => by simp at h
  | _ :: _, [], _, _, h => by simp at h
  | a :: l1, b :: l2, h1, h2, h => by
    simp only [List.map_cons, List.cons.injEq] at h
    have hab : a = b := digitChar_bounded_inj a (h1 a (by simp)) b (h2 b (by simp)) h.1
    have tail := map_digitChar_inj l1 l2 (fun d hd => h1 d (by simp [hd]))
      (fun d hd => h2 d (by simp [hd])) h.2
    rw [hab, tail]

theorem decRepr_eq (n : Nat) :
    decRepr n = (if n = 0 then [0] else (Nat.digits 10 n).reverse).map digitChar := by
  by_cases h : n = 0
  · subst h
    simp [decRepr, digitChar]
  · simp [decRepr, h, toDecAux_eq n n (le_refl n)]

theorem idToString_inj {m n : Nat} (h : idToString m = idToString n) : m = n := by
  have hdata : decRepr m = decRepr n := congrArg String.data h
  rw [decRepr_eq, decRepr_eq] at hdata
  have hm : ∀ d ∈ (if m = 0 then [0] else (Nat.digits 10 m).reverse), d < 10 := by
    split
    · simp
    · intro d hd
      exact Nat.digits_lt_base (by norm_num) (List.mem_reverse.mp hd)
  have hn : ∀ d ∈ (if n = 0 then [0] else (Nat.digits 10 n).reverse), d < 10 := by
    split
    · simp
    · intro d hd
      exact Nat.digits_lt_base (by norm_num) (List.mem_reverse.mp hd)
  have hlists := map_digitChar_inj _ _ hm hn hdata
  have key : ∀ k : Nat,
      Nat.ofDigits 10 (if k = 0 then ([0] : List Nat) else (Nat.digits 10 k).reverse).reverse = k := by
    intro k
    by_cases hk : k = 0
    · subst hk
      simp [Nat.ofDigits]
    · simp [hk, Nat.ofDigits_digits]
  calc m = Nat.ofDigits 10 (if m = 0 then ([0] : List Nat) else (Nat.digits 10 m).reverse).reverse :=
        (key m).symm
    _ = Nat.ofDigits 10 (if n = 0 then ([0] : List Nat) else (Nat.digits 10 n).reverse).reverse := by
        rw [hlists]
    _ = n := key n

theorem visitBrushChildren_spec (cs : List Node) : ∀ s : SerializerState,
    visitBrushChildren cs s =
      ({ s with brushNo := s.brushNo + (brushRefs cs).length },
       (brushRefs cs).map Event.brushEvt) := by
  induction cs with
  | nil => intro s; simp [visitBrushChildren, brushRefs]
  | cons c rest ih =>
    intro s
    cases c with
    | world r ps chs => simp [visitBrushChildren, brushRefs, List.filterMap_cons, ih]
    | layer r d lk hd chs => simp [visitBrushChildren, brushRefs, List.filterMap_cons, ih]
    | group r nm chs => simp [visitBrushChildren, brushRefs, List.filterMap_cons, ih]
    | entity r chs => simp [visitBrushChildren, brushRefs, List.filterMap_cons, ih]
    | brush b =>
      simp [visitBrushChildren, brushRefs, List.filterMap_cons, brush, ih,
        Nat.add_assoc, Nat.add_comm, Nat.add_left_comm]

/-- C10: `parentProperties` applied to the null node pointer returns the
empty property list and leaves the serializer state untouched, with no
dereference and no error. -/
theorem parentProperties_null_total (s : SerializerState) :
    parentProperties none s = ([], s) := rfl

/-- C7: `parentProperties` on a non-null node returns the empty list for
World, Entity and Brush nodes, the single "Layer" back-reference with the
layer IdManager's id for a Layer node, and the single "Group" back-reference
with the group IdManager's id for a Group node. -/
theorem parentProperties_by_kind (s : SerializerState) :
    (∀ ref props children, parentProperties (some (Node.world ref props children)) s = ([], s)) ∧
    (∀ ref children, parentProperties (some (Node.entity ref children)) s = ([], s)) ∧
    (∀ ref, parentProperties (some (Node.brush ref)) s = ([], s)) ∧
    (∀ ref d lk hd c, parentProperties (some (Node.layer ref d lk hd c)) s =
      ([⟨PropertyKeys.Layer, (layerGetId ref s).1⟩], (layerGetId ref s).2)) ∧
    (∀ ref nm c, parentProperties (some (Node.group ref nm c)) s =
      ([⟨PropertyKeys.Group, (groupGetId ref s).1⟩], (groupGetId ref s).2)) :=
  ⟨fun _ _ _ => rfl, fun _ _ => rfl, fun _ => rfl,
   fun _ _ _ _ _ => rfl, fun _ _ _ => rfl⟩

/-- C4: over every call sequence of the serializer protocol, `beginFile`
sets both counters to 0, `endEntity` increments exactly the entity counter,
`beginEntity` resets exactly the brush counter, `brush` increments exactly
the brush counter, and no other primitive call changes either counter. -/
theorem counters_step_spec (s : SerializerState) :
    (∀ roots, (applyOp (SOp.opBeginFile roots) s).1.entityNo = 0 ∧
              (applyOp (SOp.opBeginFile roots) s).1.brushNo = 0) ∧
    (∀ n, (applyOp (SOp.opEndEntity n) s).1.entityNo = s.entityNo + 1 ∧
          (applyOp (SOp.opEndEntity n) s).1.brushNo = s.brushNo) ∧
    (∀ n, (applyOp (SOp.opBeginEntity n) s).1.brushNo = 0 ∧
          (applyOp (SOp.opBeginEntity n) s).1.entityNo = s.entityNo) ∧
    (∀ b, (applyOp (SOp.opBrush b) s).1.brushNo = s.brushNo + 1 ∧
          (applyOp (SOp.opBrush b) s).1.entityNo = s.entityNo) ∧
    ((applyOp SOp.opEndFile s).1.entityNo = s.entityNo ∧
     (applyOp SOp.opEndFile s).1.brushNo = s.brushNo) ∧
    (∀ p, (applyOp (SOp.opEntityProperty p) s).1.entityNo = s.entityNo ∧
          (applyOp (SOp.opEntityProperty p) s).1.brushNo = s.brushNo) ∧
    (∀ f, (applyOp (SOp.opBrushFace f) s).1.entityNo = s.entityNo ∧
          (applyOp (SOp.opBrushFace f) s).1.brushNo = s.brushNo) ∧
    (∀ b, (applyOp (SOp.opSetExporting b) s).1.entityNo = s.entityNo ∧
          (applyOp (SOp.opSetExporting b) s).1.brushNo = s.brushNo) :=
  ⟨fun _ => ⟨rfl, rfl⟩, fun _ => ⟨rfl, rfl⟩, fun _ => ⟨rfl, rfl⟩, fun _ => ⟨rfl, rfl⟩,
   ⟨rfl, rfl⟩, fun _ => ⟨rfl, rfl⟩, fun _ => ⟨rfl, rfl⟩, fun _ => ⟨rfl, rfl⟩⟩

/-- C9: `entity(node, properties, parentProperties, brushParent)` emits the
begin-entity hook, then every element of `properties` in order, then every
element of `parentProperties` in order, then one brush hook per direct Brush
child of `brushParent` in order (children of any other kind produce no
output), then the end-entity hook. -/
theorem entity_emission_spec (node : Nat) (props pprops : List EntityProperty)
    (brushParent : Node) (s : SerializerState) :
    (entity node props pprops brushParent s).2 =
      [Event.beginEntityEvt node] ++ props.map Event.propertyEvt ++
        pprops.map Event.propertyEvt ++
        (brushRefs brushParent.children).map Event.brushEvt ++
      [Event.endEntityEvt node] := by
  simp [entity, beginEntityWithProps, beginEntity, entityProperties, endEntity,
    visitBrushChildren_spec]

theorem lookup_append_some {ids : List (Nat × String)} {t : Nat} {r : String}
    (l : List (Nat × String)) (h : lookupRef ids t = some r) :
    lookupRef (ids ++ l) t = some r := by
  induction ids with
  | nil => simp [lookupRef] at h
  | cons e rest ih =>
    simp only [List.cons_append, lookupRef] at h ⊢
    by_cases he : e.1 = t
    · simpa [he] using h
    · simp only [he, if_false] at h ⊢
      exact ih h

theorem lookup_append_self {ids : List (Nat × String)} {t : Nat}
    (v : String) (h : lookupRef ids t = none) :
    lookupRef (ids ++ [(t, v)]) t = some v := by
  induction ids with
  | nil => simp [lookupRef]
  | cons e rest ih =>
    simp only [List.cons_append, lookupRef] at h ⊢
    by_cases he : e.1 = t
    · simp [he] at h
    · simp only [he, if_false] at h ⊢
      exact ih h

theorem lookup_append_other {ids : List (Nat × String)} {t u : Nat}
    (v : String) (h : t ≠ u) :
    lookupRef (ids ++ [(u, v)]) t = lookupRef ids t := by
  induction ids with
  | nil =>
    have hu : ¬(u = t) := fun hu => h hu.symm
    simp [lookupRef, hu]
  | cons e rest ih =>
    simp only [List.cons_append, lookupRef]
    by_cases he : e.1 = t
    · simp [he]
    · simp only [he, if_false]
      exact ih

theorem lookup_mem {ids : List (Nat × String)} {t : Nat} {r : String}
    (h : lookupRef ids t = some r) : r ∈ ids.map Prod.snd := by
  induction ids with
  | nil => simp [lookupRef] at h
  | cons e rest ih =>
    by_cases he : e.1 = t
    · simp [lookupRef, he] at h
      simp [h]
    · simp only [lookupRef, he, if_false] at h
      simp [ih h]

theorem lookup_inj {ids : List (Nat × String)} {t1 t2 : Nat} {r1 r2 : String}
    (hkeys : (ids.map Prod.fst).Nodup) (hvals : (ids.map Prod.snd).Nodup)
    (h1 : lookupRef ids t1 = some r1) (h2 : lookupRef ids t2 = some r2)
    (hne : t1 ≠ t2) : r1 ≠ r2 := by
  induction ids with
  | nil => simp [lookupRef] at h1
  | cons e rest ih =>
    simp only [List.map_cons, List.nodup_cons] at hkeys hvals
    by_cases he1 : e.1 = t1
    · have he2 : ¬(e.1 = t2) := fun h => hne (he1 ▸ h ▸ rfl)
      simp only [lookupRef, he1, if_true] at h1
      simp only [lookupRef, he2, if_false] at h2
      cases h1
      exact fun hcontra => hvals.1 (hcontra ▸ lookup_mem h2)
    · by_cases he2 : e.1 = t2
      · simp only [lookupRef, he2, if_true] at h2
        simp only [lookupRef, he1, if_false] at h1
        cases h2
        exact fun hcontra => hvals.1 (hcontra ▸ lookup_mem h1)
      · simp only [lookupRef, he1, he2, if_false] at h1 h2
        exact ih hkeys.2 hvals.2 h1 h2

theorem layerGetId_cached {s : SerializerState} {t : Nat} {r : String}
    (h : lookupRef s.layerIds t = some r) : layerGetId t s = (r, s) := by
  simp [layerGetId, getIdCore, h]

theorem groupGetId_cached {s : SerializerState} {t : Nat} {r : String}
    (h : lookupRef s.groupIds t = some r) : groupGetId t s = (r, s) := by
  simp [groupGetId, getIdCore, h]

theorem layerGetId_new {s : SerializerState} {t : Nat}
    (h : lookupRef s.layerIds t = none) :
    layerGetId t s = (idToString s.currentId,
      { s with layerIds := s.layerIds ++ [(t, idToString s.currentId)],
               currentId := s.currentId + 1 }) := by
  simp [layerGetId, getIdCore, h]

theorem groupGetId_new {s : SerializerState} {t : Nat}
    (h : lookupRef s.groupIds t = none) :
    groupGetId t s = (idToString s.currentId,
      { s with groupIds := s.groupIds ++ [(t, idToString s.currentId)],
               currentId := s.currentId + 1 }) := by
  simp [groupGetId, getIdCore, h]

theorem lookup_after_layerGetId (t : Nat) (s : SerializerState) :
    lookupRef (layerGetId t s).2.layerIds t = some (layerGetId t s).1 := by
  rcases h : lookupRef s.layerIds t with _ | r
  · rw [layerGetId_new h]
    exact lookup_append_self _ h
  · rw [layerGetId_cached h]
    exact h

theorem lookup_after_groupGetId (t : Nat) (s : SerializerState) :
    lookupRef (groupGetId t s).2.groupIds t = some (groupGetId t s).1 := by
  rcases h : lookupRef s.groupIds t with _ | r
  · rw [groupGetId_new h]
    exact lookup_append_self _ h
  · rw [groupGetId_cached h]
    exact h

theorem cacheInv_val {ids : List (Nat × String)} {cur : Nat} {r : String}
    (hinv : CacheInv ids cur) (h : r ∈ ids.map Prod.snd) :
    ∃ j, 0 < j ∧ j < cur ∧ r = idToString j := by
  rcases List.mem_map.mp h with ⟨e, he, hr⟩
  rcases hinv e he with ⟨j, hj⟩
  exact ⟨j, hj.1, hj.2.1, hr ▸ hj.2.2⟩

theorem crossGetId_ne {A B : List (Nat × String)} {cur : Nat} (t1 t2 : Nat)
    (hAInv : CacheInv A cur) (hBInv : CacheInv B cur)
    (hdisj : ∀ a, a ∈ A.map Prod.snd → a ∈ B.map Prod.snd → False) :
    (getIdCore B (getIdCore A cur t1).2.2 t2).1 ≠ (getIdCore A cur t1).1 := by
  rcases h1 : lookupRef A t1 with _ | r1
  · rcases h2 : lookupRef B t2 with _ | r2
    · simp only [getIdCore, h1, h2]
      intro hcontra
      have := idToString_inj hcontra
      omega
    · simp only [getIdCore, h1, h2]
      rcases cacheInv_val hBInv (lookup_mem h2) with ⟨j, hj0, hjcur, hjr⟩
      intro hcontra
      rw [hjr] at hcontra
      have := idToString_inj hcontra
      omega
  · rcases h2 : lookupRef B t2 with _ | r2
    · simp only [getIdCore, h1, h2]
      rcases cacheInv_val hAInv (lookup_mem h1) with ⟨j, hj0, hjcur, hjr⟩
      intro hcontra
      rw [hjr] at hcontra
      have := idToString_inj hcontra.symm
      omega
    · simp only [getIdCore, h1, h2]
      intro hcontra
      exact hdisj r1 (lookup_mem h1) (hcontra ▸ lookup_mem h2)

/-- C1 counterexample: on a freshly constructed serializer the very first id
handed out by the layer IdManager is the decimal form of 1, but the very
first id handed out by the group IdManager is the decimal form of 2 and
differs from the layer id: the two managers do not maintain separate
counters each starting at 1 (the `static` local in `makeId` is one shared
counter), so a layer node and a group node are never assigned the same
numeric id string. -/
theorem separate_counters_counterexample :
    (layerGetId 0 initialState).1 = idToString 1 ∧
    (groupGetId 1 (layerGetId 0 initialState).2).1 = idToString 2 ∧
    (groupGetId 1 (layerGetId 0 initialState).2).1 ≠ (layerGetId 0 initialState).1 := by
  refine ⟨rfl, rfl, ?_⟩
  decide

/-- C1 amended: the layer IdManager and the group IdManager of one
NodeSerializer draw from one shared monotonic counter (the function-local
static in `makeId`, starting at 1), so in any reachable state a layer node
and a group node are never assigned the same numeric id string, in either
order of assignment; the per-usage key namespacing is additional, not the
collision guard. -/
theorem layer_group_ids_never_collide (s : SerializerState) (t1 t2 : Nat)
    (hInv : Inv s) :
    (groupGetId t2 (layerGetId t1 s).2).1 ≠ (layerGetId t1 s).1 ∧
    (layerGetId t2 (groupGetId t1 s).2).1 ≠ (groupGetId t1 s).1 := by
  have hsplit := List.nodup_append.mp (by simpa using hInv.distinctVals)
  have hdisj : ∀ a, a ∈ s.layerIds.map Prod.snd → a ∈ s.groupIds.map Prod.snd → False :=
    fun a ha hb => hsplit.2.2 ha hb
  constructor
  · exact crossGetId_ne t1 t2 hInv.layerVals hInv.groupVals hdisj
  · exact crossGetId_ne t1 t2 hInv.groupVals hInv.layerVals
      (fun a ha hb => hdisj a hb ha)

/-- Witness for the amended C1 theorem at the fresh serializer state. -/
theorem layer_group_ids_never_collide_witness :
    (groupGetId 1 (layerGetId 0 initialState).2).1 ≠ (layerGetId 0 initialState).1 ∧
    (layerGetId 1 (groupGetId 0 initialState).2).1 ≠ (groupGetId 0 initialState).1 :=
  layer_group_ids_never_collide initialState 0 1
    ⟨by simp [CacheInv, initialState], by simp [CacheInv, initialState],
     by simp [initialState], by simp [initialState], by simp [initialState],
     by simp [initialState]⟩

theorem layerGetId_mono {s : SerializerState} {t : Nat} {r : String} (u : Nat)
    (h : lookupRef s.layerIds t = some r) :
    lookupRef (layerGetId u s).2.layerIds t = some r := by
  rcases hu : lookupRef s.layerIds u with _ | ru
  · rw [layerGetId_new hu]
    exact lookup_append_some _ h
  · rw [layerGetId_cached hu]
    exact h

theorem groupGetId_mono {s : SerializerState} {t : Nat} {r : String} (u : Nat)
    (h : lookupRef s.groupIds t = some r) :
    lookupRef (groupGetId u s).2.groupIds t = some r := by
  rcases hu : lookupRef s.groupIds u with _ | ru
  · rw [groupGetId_new hu]
    exact lookup_append_some _ h
  · rw [groupGetId_cached hu]
    exact h

theorem layerGetId_groupIds (u : Nat) (s : SerializerState) :
    (layerGetId u s).2.groupIds = s.groupIds := rfl

theorem groupGetId_layerIds (u : Nat) (s : SerializerState) :
    (groupGetId u s).2.layerIds = s.layerIds := rfl

theorem runSession_mono (ops : List SessionOp) : ∀ s : SerializerState,
    (∀ t r, lookupRef s.layerIds t = some r →
      lookupRef (runSession ops s).layerIds t = some r) ∧
    (∀ t r, lookupRef s.groupIds t = some r →
      lookupRef (runSession ops s).groupIds t = some r) := by
  induction ops with
  | nil => exact fun s => ⟨fun _ _ h => h, fun _ _ h => h⟩
  | cons op rest ih =>
    intro s
    cases op with
    | callLayerId u =>
      refine ⟨fun t r h => (ih _).1 t r (layerGetId_mono u h),
              fun t r h => (ih _).2 t r ?_⟩
      rw [layerGetId_groupIds]
      exact h
    | callGroupId u =>
      refine ⟨fun t r h => (ih _).1 t r ?_,
              fun t r h => (ih _).2 t r (groupGetId_mono u h)⟩
      rw [groupGetId_layerIds]
      exact h
    | callBeginFile roots =>
      exact ⟨fun t r h => (ih _).1 t r h, fun t r h => (ih _).2 t r h⟩

theorem sameGetId_ne {A : List (Nat × String)} {cur : Nat} {t1 t2 : Nat}
    (hne : t1 ≠ t2) (hAInv : CacheInv A cur)
    (hkeys : (A.map Prod.fst).Nodup) (hvals : (A.map Prod.snd).Nodup) :
    (getIdCore (getIdCore A cur t1).2.1 (getIdCore A cur t1).2.2 t2).1 ≠
      (getIdCore A cur t1).1 := by
  rcases h1 : lookupRef A t1 with _ | r1
  · have h2eq : lookupRef (A ++ [(t1, idToString cur)]) t2 = lookupRef A t2 :=
      lookup_append_other _ (fun h => hne h.symm)
    rcases h2 : lookupRef A t2 with _ | r2
    · simp only [getIdCore, h1, h2eq, h2]
      intro hcontra
      have := idToString_inj hcontra
      omega
    · simp only [getIdCore, h1, h2eq, h2]
      rcases cacheInv_val hAInv (lookup_mem h2) with ⟨j, hj0, hjcur, hjr⟩
      intro hcontra
      rw [hjr] at hcontra
      have := idToString_inj hcontra
      omega
  · rcases h2 : lookupRef A t2 with _ | r2
    · simp only [getIdCore, h1, h2]
      rcases cacheInv_val hAInv (lookup_mem h1) with ⟨j, hj0, hjcur, hjr⟩
      intro hcontra
      rw [hjr] at hcontra
      have := idToString_inj hcontra.symm
      omega
    · simp only [getIdCore, h1, h2]
      exact lookup_inj hkeys hvals h2 h1 (fun h => hne h.symm)

/-- C3: `getId` is idempotent (a second call on the same node reference
returns the identical string and leaves the state unchanged); on a reachable
state two distinct node references always receive distinct id strings, even
when every field of the two nodes is equal (the embedding keys nodes only by
their reference token); and an id once returned stays cached and is returned
unchanged by every later `getId` on that node, across arbitrary interleaved
`getId` calls on either manager and `beginFile` calls, because `beginFile`
does not clear the id caches. -/
theorem getId_idempotent_distinct_stable (s : SerializerState) (t t1 t2 : Nat)
    (ops : List SessionOp) (roots : List Nat) :
    layerGetId t (layerGetId t s).2 = ((layerGetId t s).1, (layerGetId t s).2) ∧
    groupGetId t (groupGetId t s).2 = ((groupGetId t s).1, (groupGetId t s).2) ∧
    (Inv s → t1 ≠ t2 →
      (layerGetId t2 (layerGetId t1 s).2).1 ≠ (layerGetId t1 s).1 ∧
      (groupGetId t2 (groupGetId t1 s).2).1 ≠ (groupGetId t1 s).1) ∧
    (layerGetId t (beginFile roots (runSession ops (layerGetId t s).2)).1).1 =
      (layerGetId t s).1 ∧
    (groupGetId t (beginFile roots (runSession ops (groupGetId t s).2)).1).1 =
      (groupGetId t s).1 := by
  refine ⟨layerGetId_cached (lookup_after_layerGetId t s),
    groupGetId_cached (lookup_after_groupGetId t s), ?_, ?_, ?_⟩
  · intro hInv hne
    have hsplit := List.nodup_append.mp (by simpa using hInv.distinctVals)
    exact ⟨sameGetId_ne hne hInv.layerVals hInv.layerKeys hsplit.1,
           sameGetId_ne hne hInv.groupVals hInv.groupKeys hsplit.2.1⟩
  · have h1 := (runSession_mono ops _).1 t _ (lookup_after_layerGetId t s)
    have h2 : lookupRef (beginFile roots (runSession ops (layerGetId t s).2)).1.layerIds t =
        some (layerGetId t s).1 := h1
    rw [layerGetId_cached h2]
  · have h1 := (runSession_mono ops _).2 t _ (lookup_after_groupGetId t s)
    have h2 : lookupRef (beginFile roots (runSession ops (groupGetId t s).2)).1.groupIds t =
        some (groupGetId t s).1 := h1
    rw [groupGetId_cached h2]

/-- Witness for the C3 theorem at the fresh serializer state. -/
theorem getId_idempotent_distinct_stable_witness :
    layerGetId 7 (layerGetId 7 initialState).2 =
      ((layerGetId 7 initialState).1, (layerGetId 7 initialState).2) ∧
    (layerGetId 1 (layerGetId 0 initialState).2).1 ≠ (layerGetId 0 initialState).1 ∧
    (layerGetId 7 (beginFile []
        (runSession [SessionOp.callGroupId 3] (layerGetId 7 initialState).2)).1).1 =
      (layerGetId 7 initialState).1 := by
  have h := getId_idempotent_distinct_stable initialState 7 0 1
    [SessionOp.callGroupId 3] []
  refine ⟨h.1, (h.2.2.1 ?_ (by decide)).1, h.2.2.2.1⟩
  exact ⟨by simp [CacheInv, initialState], by simp [CacheInv, initialState],
    by simp [initialState], by simp [initialState], by simp [initialState],
    by simp [initialState]⟩

theorem hasKey_addOrUpdate_self (ps : List EntityProperty) (k v : String) :
    hasKey (addOrUpdateProperty ps k v) k = true := by
  induction ps with
  | nil => simp [addOrUpdateProperty, hasKey]
  | cons p rest ih =>
    by_cases hp : p.key = k
    · simp [addOrUpdateProperty, hp, hasKey]
    · simp [addOrUpdateProperty, hp, hasKey, ih]

theorem hasKey_addOrUpdate_other (ps : List EntityProperty) (k v k' : String)
    (h : k' ≠ k) :
    hasKey (addOrUpdateProperty ps k v) k' = hasKey ps k' := by
  induction ps with
  | nil => simp [addOrUpdateProperty, hasKey, Ne.symm h]
  | cons p rest ih =>
    by_cases hp : p.key = k
    · have hpk : ¬(p.key = k') := fun hc => h (hc ▸ hp)
      simp [addOrUpdateProperty, hp, hasKey, Ne.symm h, hpk]
    · simp only [addOrUpdateProperty, hp, if_false, hasKey]
      by_cases hpq : p.key = k'
      · simp [hpq]
      · simp [hpq, ih]

theorem hasKey_remove_self (ps : List EntityProperty) (k : String) :
    hasKey (removeProperty ps k) k = false := by
  induction ps with
  | nil => simp [removeProperty, hasKey]
  | cons p rest ih =>
    by_cases hp : p.key = k
    · simp [removeProperty, hp, ih]
    · simp [removeProperty, hp, hasKey, ih]

theorem hasKey_remove_other (ps : List EntityProperty) (k k' : String)
    (h : k' ≠ k) :
    hasKey (removeProperty ps k) k' = hasKey ps k' := by
  induction ps with
  | nil => simp [removeProperty]
  | cons p rest ih =>
    by_cases hp : p.key = k
    · simp [removeProperty, hp, hasKey, Ne.symm h, ih]
    · simp only [removeProperty, hp, if_false, hasKey]
      by_cases hpq : p.key = k'
      · simp [hpq]
      · simp [hpq, ih]

theorem hasKey_iff_mem (ps : List EntityProperty) (k : String) :
    hasKey ps k = true ↔ k ∈ ps.map EntityProperty.key := by
  induction ps with
  | nil => simp [hasKey]
  | cons p rest ih =>
    by_cases hp : p.key = k
    · simp [hasKey, hp]
    · have hpk : ¬(k = p.key) := fun hc => hp hc.symm
      simp [hasKey, hp, hpk, ih]

theorem keys_addOrUpdate (ps : List EntityProperty) (k v : String) :
    (addOrUpdateProperty ps k v).map EntityProperty.key =
      if hasKey ps k then ps.map EntityProperty.key
      else ps.map EntityProperty.key ++ [k] := by
  induction ps with
  | nil => simp [addOrUpdateProperty, hasKey]
  | cons p rest ih =>
    by_cases hp : p.key = k
    · simp [addOrUpdateProperty, hp, hasKey]
    · simp only [addOrUpdateProperty, hp, if_false, List.map_cons, hasKey, ih]
      by_cases hr : hasKey rest k
      · simp [hr]
      · simp [hr]

theorem keysNodup_addOrUpdate (ps : List EntityProperty) (k v : String)
    (h : (ps.map EntityProperty.key).Nodup) :
    ((addOrUpdateProperty ps k v).map EntityProperty.key).Nodup := by
  rw [keys_addOrUpdate]
  by_cases hk : hasKey ps k
  · simpa [hk] using h
  · have hmem : k ∉ ps.map EntityProperty.key := by
      intro hc
      exact hk ((hasKey_iff_mem ps k).mpr hc)
    simp [hk, List.nodup_append, h, hmem]

theorem keys_remove_sublist (ps : List EntityProperty) (k : String) :
    ((removeProperty ps k).map EntityProperty.key).Sublist
      (ps.map EntityProperty.key) := by
  induction ps with
  | nil => simp [removeProperty]
  | cons p rest ih =>
    by_cases hp : p.key = k
    · simp only [removeProperty, hp, if_true, List.map_cons]
      exact ih.cons _
    · simp only [removeProperty, hp, if_false, List.map_cons]
      exact ih.cons₂ _

theorem keysNodup_remove (ps : List EntityProperty) (k : String)
    (h : (ps.map EntityProperty.key).Nodup) :
    ((removeProperty ps k).map EntityProperty.key).Nodup :=
  h.sublist (keys_remove_sublist ps k)

theorem hasKey_condStep_self (ps : List EntityProperty) (k v : String)
    (b : Prop) [Decidable b] :
    hasKey (if b then addOrUpdateProperty ps k v else removeProperty ps k) k =
      decide b := by
  split
  · next hb => simp [hasKey_addOrUpdate_self, hb]
  · next hb => simp [hasKey_remove_self, hb]

theorem hasKey_condStep_other (ps : List EntityProperty) (k v k' : String)
    (b : Prop) [Decidable b] (h : k' ≠ k) :
    hasKey (if b then addOrUpdateProperty ps k v else removeProperty ps k) k' =
      hasKey ps k' := by
  split
  · exact hasKey_addOrUpdate_other _ _ _ _ h
  · exact hasKey_remove_other _ _ _ h

theorem keysNodup_condStep (ps : List EntityProperty) (k v : String)
    (b : Prop) [Decidable b] (h : (ps.map EntityProperty.key).Nodup) :
    (((if b then addOrUpdateProperty ps k v else removeProperty ps k).map
        EntityProperty.key)).Nodup := by
  split
  · exact keysNodup_addOrUpdate _ _ _ h
  · exact keysNodup_remove _ _ h

/-- C5: the world property list emitted by `defaultLayer` carries each of
the four layer-derived keys exactly when its condition holds (color present,
lock state Locked, hidden, omit-from-export), with the key removed
otherwise no matter what the world's own properties contained, and the
overlay keeps the key list duplicate-free. -/
theorem defaultLayer_overlay_spec (worldProps : List EntityProperty) (dl : Layer)
    (lock : LockState) (hidden : Bool)
    (hnd : (worldProps.map EntityProperty.key).Nodup) :
    hasKey (setDefaultLayerProps worldProps dl lock hidden)
      PropertyKeys.LayerColor = dl.color.isSome ∧
    hasKey (setDefaultLayerProps worldProps dl lock hidden)
      PropertyKeys.LayerLocked = decide (lock = LockState.Lock_Locked) ∧
    hasKey (setDefaultLayerProps worldProps dl lock hidden)
      PropertyKeys.LayerHidden = hidden ∧
    hasKey (setDefaultLayerProps worldProps dl lock hidden)
      PropertyKeys.LayerOmitFromExport = dl.omitFromExport ∧
    ((setDefaultLayerProps worldProps dl lock hidden).map EntityProperty.key).Nodup := by
  have hCL : PropertyKeys.LayerColor ≠ PropertyKeys.LayerLocked := by decide
  have hCH : PropertyKeys.LayerColor ≠ PropertyKeys.LayerHidden := by decide
  have hCO : PropertyKeys.LayerColor ≠ PropertyKeys.LayerOmitFromExport := by decide
  have hLH : PropertyKeys.LayerLocked ≠ PropertyKeys.LayerHidden := by decide
  have hLO : PropertyKeys.LayerLocked ≠ PropertyKeys.LayerOmitFromExport := by decide
  have hHO : PropertyKeys.LayerHidden ≠ PropertyKeys.LayerOmitFromExport := by decide
  refine ⟨?_, ?_, ?_, ?_, ?_⟩
  · rcases hc : dl.color with _ | c <;>
      simp [setDefaultLayerProps, hc, hasKey_condStep_self, hasKey_condStep_other,
        hasKey_addOrUpdate_self, hasKey_addOrUpdate_other, hasKey_remove_self,
        hasKey_remove_other, hCL, hCH, hCO, hLH, hLO, hHO]
  · rcases hc : dl.color with _ | c <;>
      simp [setDefaultLayerProps, hc, hasKey_condStep_self, hasKey_condStep_other,
        hasKey_addOrUpdate_self, hasKey_addOrUpdate_other, hasKey_remove_self,
        hasKey_remove_other, hCL, hCH, hCO, hLH, hLO, hHO]
  · rcases hc : dl.color with _ | c <;>
      simp [setDefaultLayerProps, hc, hasKey_condStep_self, hasKey_condStep_other,
        hasKey_addOrUpdate_self, hasKey_addOrUpdate_other, hasKey_remove_self,
        hasKey_remove_other, hCL, hCH, hCO, hLH, hLO, hHO]
  · rcases hc : dl.color with _ | c <;>
      simp [setDefaultLayerProps, hc, hasKey_condStep_self, hasKey_condStep_other,
        hasKey_addOrUpdate_self, hasKey_addOrUpdate_other, hasKey_remove_self,
        hasKey_remove_other, hCL, hCH, hCO, hLH, hLO, hHO]
  · rcases hc : dl.color with _ | c
    · simp only [setDefaultLayerProps, hc]
      exact keysNodup_condStep _ _ _ _ (keysNodup_condStep _ _ _ _
        (keysNodup_condStep _ _ _ _ (keysNodup_remove _ _ hnd)))
    · simp only [setDefaultLayerProps, hc]
      exact keysNodup_condStep _ _ _ _ (keysNodup_condStep _ _ _ _
        (keysNodup_condStep _ _ _ _ (keysNodup_addOrUpdate _ _ _ hnd)))

/-- Witness for the C5 theorem: a world property list holding a stale hidden
flag, a default layer with everything unset. -/
theorem defaultLayer_overlay_spec_witness :
    hasKey (setDefaultLayerProps [⟨PropertyKeys.LayerHidden, "1"⟩]
        ⟨"", none, none, false⟩ LockState.Lock_Unlocked false)
      PropertyKeys.LayerHidden = false ∧
    ((setDefaultLayerProps [⟨PropertyKeys.LayerHidden, "1"⟩]
        ⟨"", none, none, false⟩ LockState.Lock_Unlocked false).map
      EntityProperty.key).Nodup := by
  have h := defaultLayer_overlay_spec [⟨PropertyKeys.LayerHidden, "1"⟩]
    ⟨"", none, none, false⟩ LockState.Lock_Unlocked false (by decide)
  exact ⟨h.2.2.1, h.2.2.2.2⟩

theorem entity_trace (node : Nat) (props pprops : List EntityProperty)
    (brushParent : Node) (s : SerializerState) :
    (entity node props pprops brushParent s).2 =
      [Event.beginEntityEvt node] ++ props.map Event.propertyEvt ++
        pprops.map Event.propertyEvt ++
        (brushRefs brushParent.children).map Event.brushEvt ++
      [Event.endEntityEvt node] := by
  simp [entity, beginEntityWithProps, beginEntity, entityProperties, endEntity,
    visitBrushChildren_spec]

/-- C2 counterexample: a world with no entity properties of its own, default
layer omitted from export, serializer exporting: the emitted world entity
carries the layer-derived omit-from-export property, so it is not emitted
with exactly the world's pre-existing properties and not free of the
layer-derived keys. -/
theorem defaultLayer_export_props_counterexample :
    (defaultLayer ⟨0, [],
        ⟨10, ⟨"", none, none, true⟩, LockState.Lock_Unlocked, false, []⟩⟩
      (setExporting true initialState)).2 =
      [Event.beginEntityEvt 0,
       Event.propertyEvt ⟨PropertyKeys.LayerOmitFromExport,
         PropertyValues.LayerOmitFromExportValue⟩,
       Event.endEntityEvt 0] := by
  decide

/-- C2 amended: when exporting with the default layer omitted from export,
`defaultLayer(world)` emits the world entity with zero `brush` calls,
carrying the overlaid property list (the world's own properties with the
four layer-derived keys applied add-or-remove, which here includes the
omit-from-export key); when the exporting flag is false, it emits the full
world entity with the same overlaid property list and one `brush` call per
direct brush child of the default layer. -/
theorem defaultLayer_emission_spec (w : WorldNode) (s : SerializerState) :
    (s.exporting = true → w.defaultLayer.layer.omitFromExport = true →
      (defaultLayer w s).2 =
        [Event.beginEntityEvt w.ref] ++
          (setDefaultLayerProps w.entityProps w.defaultLayer.layer
            w.defaultLayer.lockState w.defaultLayer.hidden).map Event.propertyEvt ++
        [Event.endEntityEvt w.ref] ∧
      ∀ b, Event.brushEvt b ∉ (defaultLayer w s).2) ∧
    (s.exporting = false →
      (defaultLayer w s).2 =
        [Event.beginEntityEvt w.ref] ++
          (setDefaultLayerProps w.entityProps w.defaultLayer.layer
            w.defaultLayer.lockState w.defaultLayer.hidden).map Event.propertyEvt ++
          (brushRefs w.defaultLayer.children).map Event.brushEvt ++
        [Event.endEntityEvt w.ref]) := by
  constructor
  · intro he ho
    have htrace : (defaultLayer w s).2 =
        [Event.beginEntityEvt w.ref] ++
          (setDefaultLayerProps w.entityProps w.defaultLayer.layer
            w.defaultLayer.lockState w.defaultLayer.hidden).map Event.propertyEvt ++
        [Event.endEntityEvt w.ref] := by
      simp [defaultLayer, he, ho, beginEntityWithProps, beginEntity,
        entityProperties, endEntity]
    refine ⟨htrace, ?_⟩
    intro b
    rw [htrace]
    simp
  · intro he
    have htrace := entity_trace w.ref
      (setDefaultLayerProps w.entityProps w.defaultLayer.layer
        w.defaultLayer.lockState w.defaultLayer.hidden) []
      w.defaultLayer.toNode s
    simp only [defaultLayer, he, Bool.false_and, Bool.false_eq_true, if_false]
    rw [htrace]
    simp [LayerNode.toNode, Node.children]

/-- Witness for the amended C2 theorem: a world with one brush directly in
the default layer, in both modes. -/
theorem defaultLayer_emission_spec_witness :
    (defaultLayer ⟨0, [],
        ⟨10, ⟨"", none, none, true⟩, LockState.Lock_Unlocked, false, [Node.brush 5]⟩⟩
      (setExporting true initialState)).2 =
      [Event.beginEntityEvt 0] ++
        (setDefaultLayerProps [] ⟨"", none, none, true⟩
          LockState.Lock_Unlocked false).map Event.propertyEvt ++
      [Event.endEntityEvt 0] ∧
    (defaultLayer ⟨0, [],
        ⟨10, ⟨"", none, none, true⟩, LockState.Lock_Unlocked, false, [Node.brush 5]⟩⟩
      initialState).2 =
      [Event.beginEntityEvt 0] ++
        (setDefaultLayerProps [] ⟨"", none, none, true⟩
          LockState.Lock_Unlocked false).map Event.propertyEvt ++
        (brushRefs [Node.brush 5]).map Event.brushEvt ++
      [Event.endEntityEvt 0] :=
  ⟨((defaultLayer_emission_spec ⟨0, [],
      ⟨10, ⟨"", none, none, true⟩, LockState.Lock_Unlocked, false, [Node.brush 5]⟩⟩
      (setExporting true initialState)).1 rfl rfl).1,
   (defaultLayer_emission_spec ⟨0, [],
      ⟨10, ⟨"", none, none, true⟩, LockState.Lock_Unlocked, false, [Node.brush 5]⟩⟩
      initialState).2 rfl⟩

theorem layerProperties_fst (l : LayerNode) (s : SerializerState) :
    (layerProperties l s).1 =
      [⟨PropertyKeys.Classname, PropertyValues.LayerClassname⟩,
       ⟨PropertyKeys.GroupType, PropertyValues.GroupTypeLayer⟩,
       ⟨PropertyKeys.LayerName, l.layer.name⟩,
       ⟨PropertyKeys.LayerId, (layerGetId l.ref s).1⟩] ++
      (l.layer.sortIndex.map (fun i =>
        (⟨PropertyKeys.LayerSortIndex, sortIndexToString i⟩ : EntityProperty))).toList ++
      (if l.lockState = LockState.Lock_Locked then
        [⟨PropertyKeys.LayerLocked, PropertyValues.LayerLockedValue⟩] else []) ++
      (if l.hidden then
        [⟨PropertyKeys.LayerHidden, PropertyValues.LayerHiddenValue⟩] else []) ++
      (if l.layer.omitFromExport then
        [⟨PropertyKeys.LayerOmitFromExport, PropertyValues.LayerOmitFromExportValue⟩]
       else []) := by
  rcases hs : l.layer.sortIndex with _ | i <;> simp [layerProperties, hs]

/-- C6: when exporting a layer that is omitted from export, `customLayer`
performs no hook calls at all and leaves the state untouched; otherwise it
emits one synthetic entity whose properties are, in order: classname
marker, group-type marker, layer name, synthetic layer id, then the sort
index only if the layer declares one, then each of the locked, hidden and
omit-from-export flags only if set. -/
theorem customLayer_emission_spec (l : LayerNode) (s : SerializerState) :
    (s.exporting = true → l.layer.omitFromExport = true →
      customLayer l s = (s, [])) ∧
    (¬(s.exporting = true ∧ l.layer.omitFromExport = true) →
      (customLayer l s).2 =
        [Event.beginEntityEvt l.ref] ++
          (([⟨PropertyKeys.Classname, PropertyValues.LayerClassname⟩,
            ⟨PropertyKeys.GroupType, PropertyValues.GroupTypeLayer⟩,
            ⟨PropertyKeys.LayerName, l.layer.name⟩,
            ⟨PropertyKeys.LayerId, (layerGetId l.ref s).1⟩] : List EntityProperty) ++
           (l.layer.sortIndex.map (fun i =>
             (⟨PropertyKeys.LayerSortIndex, sortIndexToString i⟩ : EntityProperty))).toList ++
           (if l.lockState = LockState.Lock_Locked then
             [(⟨PropertyKeys.LayerLocked, PropertyValues.LayerLockedValue⟩ : EntityProperty)]
            else []) ++
           (if l.hidden then
             [(⟨PropertyKeys.LayerHidden, PropertyValues.LayerHiddenValue⟩ : EntityProperty)]
            else []) ++
           (if l.layer.omitFromExport then
             [(⟨PropertyKeys.LayerOmitFromExport, PropertyValues.LayerOmitFromExportValue⟩ : EntityProperty)]
            else [])).map Event.propertyEvt ++
          (brushRefs l.children).map Event.brushEvt ++
        [Event.endEntityEvt l.ref]) := by
  constructor
  · intro he ho
    simp [customLayer, he, ho]
  · intro h
    have hcond : (s.exporting && l.layer.omitFromExport) = false := by
      cases he : s.exporting <;> cases ho : l.layer.omitFromExport <;> simp_all
    have htrace := entity_trace l.ref (layerProperties l s).1 []
      l.toNode (layerProperties l s).2
    simp only [customLayer, hcond, Bool.false_eq_true, if_false]
    rw [htrace, layerProperties_fst]
    simp [LayerNode.toNode, Node.children]

/-- Witness for the C6 theorem: an omitted layer while exporting emits
nothing; a decorated layer with one brush child while not exporting emits
the full synthetic entity. -/
theorem customLayer_emission_spec_witness :
    customLayer ⟨3, ⟨"lay", none, none, true⟩, LockState.Lock_Unlocked, false, []⟩
      (setExporting true initialState) = (setExporting true initialState, []) ∧
    (customLayer ⟨3, ⟨"lay", none, some 4, true⟩, LockState.Lock_Locked, true,
        [Node.brush 9]⟩ initialState).2 =
      [Event.beginEntityEvt 3] ++
        (([⟨PropertyKeys.Classname, PropertyValues.LayerClassname⟩,
          ⟨PropertyKeys.GroupType, PropertyValues.GroupTypeLayer⟩,
          ⟨PropertyKeys.LayerName, "lay"⟩,
          ⟨PropertyKeys.LayerId, (layerGetId 3 initialState).1⟩] : List EntityProperty) ++
         ((some (4 : Int)).map (fun i =>
           (⟨PropertyKeys.LayerSortIndex, sortIndexToString i⟩ : EntityProperty))).toList ++
         (if LockState.Lock_Locked = LockState.Lock_Locked then
           [(⟨PropertyKeys.LayerLocked, PropertyValues.LayerLockedValue⟩ : EntityProperty)]
          else []) ++
         (if true then
           [(⟨PropertyKeys.LayerHidden, PropertyValues.LayerHiddenValue⟩ : EntityProperty)]
          else []) ++
         (if true then
           [(⟨PropertyKeys.LayerOmitFromExport, PropertyValues.LayerOmitFromExportValue⟩ : EntityProperty)]
          else [])).map Event.propertyEvt ++
        (brushRefs [Node.brush 9]).map Event.brushEvt ++
      [Event.endEntityEvt 3] :=
  ⟨(customLayer_emission_spec
      ⟨3, ⟨"lay", none, none, true⟩, LockState.Lock_Unlocked, false, []⟩
      (setExporting true initialState)).1 rfl rfl,
   (customLayer_emission_spec
      ⟨3, ⟨"lay", none, some 4, true⟩, LockState.Lock_Locked, true, [Node.brush 9]⟩
      initialState).2 (by decide)⟩

theorem findLastNotOf_none_trailing {c : Char} : ∀ {s : List Char},
    findLastNotOf s c = none → trailingRun s c = s.length := by
  intro s
  induction s with
  | nil => intro _; rfl
  | cons a rest ih =>
    intro h
    rcases hf : findLastNotOf rest c with _ | i
    · by_cases ha : a = c
      · have ht := ih hf
        simp [trailingRun, ht, ha]
      · simp [findLastNotOf, hf, ha] at h
    · simp [findLastNotOf, hf] at h

theorem findLastNotOf_some_trailing {c : Char} : ∀ {s : List Char} {i : Nat},
    findLastNotOf s c = some i → i + 1 + trailingRun s c = s.length := by
  intro s
  induction s with
  | nil => intro i h; simp [findLastNotOf] at h
  | cons a rest ih =>
    intro i h
    rcases hf : findLastNotOf rest c with _ | j
    · by_cases ha : a = c
      · simp [findLastNotOf, hf, ha] at h
      · simp [findLastNotOf, hf, ha] at h
        have ht := findLastNotOf_none_trailing hf
        simp only [trailingRun, List.length_cons]
        rw [if_neg (fun hc => ha hc.2)]
        omega
    · simp [findLastNotOf, hf] at h
      have ht := ih hf
      have htne : trailingRun rest c ≠ rest.length := by omega
      simp only [trailingRun, List.length_cons]
      rw [if_neg (fun hc => htne hc.1)]
      omega

theorem trailingRun_cons (a : Char) (rest : List Char) (c : Char) :
    trailingRun (a :: rest) c =
      if trailingRun rest c = rest.length ∧ a = c then trailingRun rest c + 1
      else trailingRun rest c := rfl

theorem getLast_trailing_pos (c : Char) : ∀ s : List Char,
    s.getLast? = some c → 0 < trailingRun s c := by
  intro s
  induction s with
  | nil => intro h; simp at h
  | cons a rest ih =>
    intro h
    cases rest with
    | nil =>
      simp at h
      simp [trailingRun, h]
    | cons b rest2 =>
      rw [List.getLast?_cons_cons] at h
      have ht := ih h
      rw [trailingRun_cons]
      split
      · omega
      · exact ht

theorem trailingRun_pos_getLast (c : Char) : ∀ s : List Char,
    0 < trailingRun s c → s.getLast? = some c := by
  intro s
  induction s with
  | nil => intro h; simp [trailingRun] at h
  | cons a rest ih =>
    intro h
    cases rest with
    | nil =>
      by_cases ha : a = c
      · simp [ha]
      · simp [trailingRun, ha] at h
    | cons b rest2 =>
      rw [List.getLast?_cons_cons]
      apply ih
      rw [trailingRun_cons] at h
      by_cases hcond : trailingRun (b :: rest2) c = (b :: rest2).length ∧ a = c
      · rcases hcond with ⟨ht, _⟩
        rw [ht]
        simp
      · rw [if_neg hcond] at h
        exact h

/-- C8: `escapeEntityProperties` follows the trailing-backslash rule: with
an even number (including zero) of trailing backslashes the string is passed
unchanged to the quote-escaping helper; with an odd number exactly one
trailing backslash is stripped first.  The `size_t` arithmetic of the source
(`find_last_not_of` returning `npos` included) matches this parity rule for
every string shorter than `npos`. -/
theorem escapeEntityProperties_spec (s : List Char) (hlen : s.length < npos) :
    (trailingRun s '\\' % 2 = 0 →
      escapeEntityProperties s = strEscapeIfNecessary s) ∧
    (trailingRun s '\\' % 2 = 1 →
      escapeEntityProperties s = strEscapeIfNecessary s.dropLast) := by
  simp only [npos] at hlen
  by_cases hl : 0 < s.length ∧ s.getLast? = some '\\'
  · rcases hl with ⟨hpos, hlast⟩
    have htrpos : 0 < trailingRun s '\\' := getLast_trailing_pos _ s hlast
    rcases hf : findLastNotOf s '\\' with _ | i
    · have hall : trailingRun s '\\' = s.length := findLastNotOf_none_trailing hf
      have hsub : sub64 s.length npos = s.length + 1 := by
        have h1 : s.length + 2 ^ 64 - npos = s.length + 1 := by
          simp only [npos]
          omega
        rw [sub64, h1, Nat.mod_eq_of_lt (by omega)]
      have hred : escapeEntityProperties s =
          if sub64 s.length npos % 2 = 0 then
            strEscapeIfNecessary (s.take (s.length - 1))
          else strEscapeIfNecessary s := by
        simp only [escapeEntityProperties, hf]
        rw [if_pos ⟨hpos, hlast⟩]
      constructor
      · intro heven
        have hx : ¬(sub64 s.length npos % 2 = 0) := by
          rw [hsub]
          omega
        rw [hred, if_neg hx]
      · intro hodd
        have hx : sub64 s.length npos % 2 = 0 := by
          rw [hsub]
          omega
        rw [hred, if_pos hx, List.dropLast_eq_take]
    · have hsome := findLastNotOf_some_trailing hf
      have hsub : sub64 s.length i = trailingRun s '\\' + 1 := by
        have h1 : s.length + 2 ^ 64 - i = (s.length - i) + 2 ^ 64 := by omega
        rw [sub64, h1, Nat.add_mod_right, Nat.mod_eq_of_lt (by omega)]
        omega
      have hred : escapeEntityProperties s =
          if sub64 s.length i % 2 = 0 then
            strEscapeIfNecessary (s.take (s.length - 1))
          else strEscapeIfNecessary s := by
        simp only [escapeEntityProperties, hf]
        rw [if_pos ⟨hpos, hlast⟩]
      constructor
      · intro heven
        have hx : ¬(sub64 s.length i % 2 = 0) := by
          rw [hsub]
          omega
        rw [hred, if_neg hx]
      · intro hodd
        have hx : sub64 s.length i % 2 = 0 := by
          rw [hsub]
          omega
        rw [hred, if_pos hx, List.dropLast_eq_take]
  · have htr : trailingRun s '\\' = 0 := by
      by_contra hne
      have hpos' : 0 < trailingRun s '\\' := Nat.pos_of_ne_zero hne
      have hlast := trailingRun_pos_getLast _ s hpos'
      have hlen0 : 0 < s.length := by
        cases s with
        | nil => simp [trailingRun] at hpos'
        | cons a rest => simp
      exact hl ⟨hlen0, hlast⟩
    have hesc : escapeEntityProperties s = strEscapeIfNecessary s := by
      simp only [escapeEntityProperties]
      rw [if_neg hl]
    refine ⟨fun _ => hesc, fun hodd => ?_⟩
    rw [htr] at hodd
    simp at hodd

/-- Witness for the C8 theorem: two trailing backslashes (even) keep both;
one trailing backslash (odd) is stripped, yielding the escaped output of
just the prefix. -/
theorem escapeEntityProperties_spec_witness :
    escapeEntityProperties ['a', '\\', '\\'] =
      strEscapeIfNecessary ['a', '\\', '\\'] ∧
    escapeEntityProperties ['a', '\\'] =
      strEscapeIfNecessary (['a', '\\'].dropLast) ∧
    escapeEntityProperties ['a', '\\'] = ['a'] := by
  refine ⟨(escapeEntityProperties_spec ['a', '\\', '\\'] (by decide)).1 (by decide),
          (escapeEntityProperties_spec ['a', '\\'] (by decide)).2 (by decide), ?_⟩
  decide

end TB
